import Mathlib

/-!
A verification development for the dotfiles installation script
(`install/main.py`).  File contents are modelled as `List Char`, after the
universal-newline translation Python's text mode performs on reading (so the
only line separator is `'\n'`), and the filesystem entries the script touches
are modelled explicitly.  Machine-level concerns (encodings beyond ASCII case
folding, permissions, timestamps) are outside the claims and not modelled.
-/

namespace Dotfiles

/-- Python `str.isspace` on the ASCII whitespace characters (space, tab,
newline, carriage return, vertical tab, form feed). -/
def pyIsSpace (c : Char) : Bool :=
  c = ' ' || c = '\t' || c = '\n' || c = '\r' || c = '\x0b' || c = '\x0c'

/-- `f.readline()` on a fresh handle: the first line of the content,
including its terminating newline when present. -/
def readline : List Char → List Char
  | [] => []
  | c :: rest => if c = '\n' then [c] else c :: readline rest

/-- The content that remains after `f.readline()` has consumed the first
line: everything after the first `'\n'` (empty when there is none). -/
def dropFirstLine : List Char → List Char
  | [] => []
  | c :: rest => if c = '\n' then rest else dropFirstLine rest

/-- Helper for `splitlines`: prepend a character to the first line of an
already-split list of lines. -/
def consHead (c : Char) : List (List Char) → List (List Char)
  | [] => [[c]]
  | l :: ls => (c :: l) :: ls

/-- Python `str.splitlines()` for `'\n'`-separated text: `""` gives `[]`,
a trailing newline does not create a final empty line. -/
def splitlines : List Char → List (List Char)
  | [] => []
  | c :: rest => if c = '\n' then [] :: splitlines rest else consHead c (splitlines rest)

/-- `"\n".join(lines)`. -/
def joinNl : List (List Char) → List Char
  | [] => []
  | [l] => l
  | l :: ls => l ++ '\n' :: joinNl ls

/-- Python truthiness of `line.strip()` negated: true when the line is empty
or whitespace-only. -/
def isBlank (l : List Char) : Bool := l.all pyIsSpace

/-- Whether the content ends with a newline (`content.endswith("\n")`). -/
def endsWithNl (s : List Char) : Bool := s.getLast? = some '\n'

/-- Boolean test that `hay` starts with `needle`. -/
def leadsWith : List Char → List Char → Bool
  | [], _ => true
  | _ :: _, [] => false
  | a :: as, b :: bs => a = b && leadsWith as bs

/-- Python's `needle in hay` for strings: contiguous-substring containment. -/
def containsSub (needle : List Char) : List Char → Bool
  | [] => needle.isEmpty
  | c :: rest => leadsWith needle (c :: rest) || containsSub needle rest

/-- `APPEND_MODE_TARGET` from the script. -/
def APPEND_MODE_TARGET : List Char := ">>>append<<<".data

/-- `"".join(first_line.lower().split())`: the first line, lowercased and
with all whitespace removed. -/
def normalizedFirstLine (src : List Char) : List Char :=
  ((readline src).map Char.toLower).filter (fun c => !(pyIsSpace c))

/-- `should_append(file_path)`: reads the first line of the file whose
content is `src`, normalizes it, and tests `APPEND_MODE_TARGET in
processed_line` (substring containment). -/
def should_append (src : List Char) : Bool :=
  containsSub APPEND_MODE_TARGET (normalizedFirstLine src)

/-- `read_file_content(path, skip_first_line)`: the file's content,
optionally with its first line consumed. -/
def read_file_content (skipFirstLine : Bool) (content : List Char) : List Char :=
  if skipFirstLine then dropFirstLine content else content

/-- What the destination path holds before/after a merge: a regular file
with some content, or a directory. -/
inductive Entry
  | file (content : List Char)
  | dir
deriving DecidableEq, Repr

/-- The slice of the filesystem `append_to_file` can see: whether the
destination's parent directory chain exists, and what (if anything) sits at
the destination path. -/
structure FState where
  parentExists : Bool
  dest : Option Entry
deriving DecidableEq, Repr

/-- The errors the modelled operations can raise. -/
inductive FsError
  | isADirectory
  | fileExists
  | unsupportedPlatform
deriving DecidableEq, Repr

/-- What `append_to_file` reports on a run that does not raise. -/
inductive AppendReport
  | nothingToAppend
  | upToDate
  | appended (n : Nat)
deriving DecidableEq, Repr

/-- Decidable equality for `Except`, so that runs of the modelled
operations can be compared on concrete inputs. -/
instance {ε α : Type} [DecidableEq ε] [DecidableEq α] : DecidableEq (Except ε α) := fun x y =>
  match x, y with
  | .ok a, .ok b =>
    match decEq a b with
    | isTrue h => isTrue (congrArg Except.ok h)
    | isFalse h => isFalse (fun he => h (Except.ok.inj he))
  | .error a, .error b =>
    match decEq a b with
    | isTrue h => isTrue (congrArg Except.error h)
    | isFalse h => isFalse (fun he => h (Except.error.inj he))
  | .ok _, .error _ => isFalse (fun he => Except.noConfusion he)
  | .error _, .ok _ => isFalse (fun he => Except.noConfusion he)

/-- The non-blank lines of the source content after its first (marker)
line: `[line for line in content_to_append.splitlines() if line.strip()]`. -/
def sourceLines (src : List Char) : List (List Char) :=
  (splitlines (read_file_content true src)).filter (fun l => !(isBlank l))

/-- The lines of whatever sits at the destination: the split content of a
regular file, nothing for a directory or an absent entry. -/
def destLines (st : FState) : List (List Char) :=
  match st.dest with
  | some (.file c) => splitlines c
  | _ => []

/-- `append_to_file(source, destination)` where `src` is the source file's
content and `st` the destination's filesystem state.  Mirrors the script:
parent directories are created first (`mkdir(parents=True, exist_ok=True)`);
then the post-marker content is read and its blank lines dropped; an empty
remainder returns early; otherwise the destination (when it exists) is read
— opening a directory raises — its lines are collected into a set, source
lines not in the set are kept in order, and when any remain they are written
joined by newlines, preceded by a newline when the destination is non-empty
and does not end in one, and followed by one when the post-marker content
ended with one.  The returned state reflects the filesystem afterwards, the
`Except` the report or the raised error. -/
def append_to_file (src : List Char) (st : FState) : FState × Except FsError AppendReport :=
  let st1 : FState := { st with parentExists := true }
  let content_to_append := read_file_content true src
  let source_lines := sourceLines src
  if source_lines.isEmpty then
    (st1, .ok .nothingToAppend)
  else
    match st1.dest with
    | some .dir => (st1, .error .isADirectory)
    | some (.file c) =>
      let existing_lines := splitlines c
      let lines_to_write := source_lines.filter (fun l => decide (l ∉ existing_lines))
      if lines_to_write.isEmpty then
        (st1, .ok .upToDate)
      else
        let sep : List Char :=
          if c = [] then [] else if c.getLast? = some '\n' then [] else ['\n']
        let fin : List Char := if endsWithNl content_to_append then ['\n'] else []
        ({ st1 with dest := some (.file (c ++ sep ++ joinNl lines_to_write ++ fin)) },
          .ok (.appended lines_to_write.length))
    | none =>
      let lines_to_write := source_lines
      let fin : List Char := if endsWithNl content_to_append then ['\n'] else []
      ({ st1 with dest := some (.file (joinNl lines_to_write ++ fin)) },
        .ok (.appended lines_to_write.length))

/-- An entry at a symlink-installation destination: a regular file, a
directory, or a symlink carrying its target path and whether that target
exists (`Path.exists()` follows symlinks, so it is false on a dangling
one). -/
inductive LEntry
  | lfile
  | ldir
  | lsymlink (target : List String) (targetExists : Bool)
deriving DecidableEq, Repr

/-- `Path.exists()` at the destination: follows symlinks. -/
def lexists : Option LEntry → Bool
  | none => false
  | some .lfile => true
  | some .ldir => true
  | some (.lsymlink _ te) => te

/-- `create_symlink(source, destination, force)`.  `sourceResolved` is
`source.resolve()` (the fully resolved absolute path).  The parent directory
is created; then, when `force` and `destination.exists()`, the prior entry
is unlinked (symlink or file) or recursively removed (directory); finally
`os.symlink` either creates the link or raises `FileExistsError` because a
(dangling-symlink) entry is still in the way.  Returns the parent-exists
flag, the resulting destination entry, and the outcome. -/
def create_symlink (sourceResolved : List String) (_parentExists : Bool)
    (dest : Option LEntry) (force : Bool) : Bool × Option LEntry × Except FsError Unit :=
  let afterRemoval : Option LEntry :=
    if force && lexists dest then
      match dest with
      | some (.lsymlink _ _) => none
      | some .lfile => none
      | some .ldir => none
      | none => none
    else dest
  match afterRemoval with
  | some e => (true, some e, .error .fileExists)
  | none => (true, some (.lsymlink sourceResolved true), .ok ())

/-- An entry at a copy-installation destination: a regular file with
content, or a directory listing its immediate children by name. -/
inductive CEntry
  | cfile (content : List Char)
  | cdir (entries : List (String × List Char))
deriving DecidableEq, Repr

/-- Insert-or-overwrite a named child of a directory listing. -/
def updateEntry : List (String × List Char) → String → List Char → List (String × List Char)
  | [], nm, c => [(nm, c)]
  | (m, d) :: es, nm, c =>
    if m = nm then (nm, c) :: es else (m, d) :: updateEntry es nm c

/-- `copy_file(source, destination)`: the parent directory is created, then
`shutil.copy2(source, destination)` runs.  `copy2` overwrites a regular
file, creates the destination when absent, and — when the destination is a
directory — copies the source *into* it under the source's base name,
leaving the directory in place.  Returns the parent-exists flag and the
resulting destination entry. -/
def copy_file (sourceName : String) (sourceContent : List Char)
    (dest : Option CEntry) : Bool × Option CEntry :=
  (true,
    match dest with
    | some (.cdir es) => some (.cdir (updateEntry es sourceName sourceContent))
    | _ => some (.cfile sourceContent))

/-- The `OperatingSystem` enum of the script. -/
inductive OperatingSystem
  | Linux
  | MacOS
  | Windows
deriving DecidableEq, Repr

/-- `detect_os()`, with `platform.system()`'s return value as input: the
identifier is lowercased and matched against the three supported names;
anything else raises. -/
def detect_os (system : List Char) : Except FsError OperatingSystem :=
  let s := system.map Char.toLower
  if s = "linux".data then .ok .Linux
  else if s = "darwin".data then .ok .MacOS
  else if s = "windows".data then .ok .Windows
  else .error .unsupportedPlatform

/-- A regular file found under the platform's source tree: its path
relative to the tree and its content. -/
structure SrcFile where
  relPath : List String
  content : List Char
deriving DecidableEq, Repr

/-- The per-file filesystem action `install_dotfiles` dispatches to. -/
inductive Action
  | append (relPath : List String)
  | symlink (relPath : List String)
  | copy (relPath : List String)
deriving DecidableEq, Repr

/-- How a run of `install_dotfiles` ends when no exception is raised. -/
inductive RunResult
  | aborted
  | noSourceDir
  | completed (actions : List Action)
deriving DecidableEq, Repr

/-- `install_dotfiles(os_name)`: after the summary is printed, the user's
answer is compared to `"y"`; any other answer returns at once.  Then an
absent source tree returns.  Otherwise every regular file is classified and
dispatched: `append_to_file` when its first line carries the marker, else
`create_symlink` on Linux/macOS and `copy_file` on Windows.  The returned
value records which filesystem actions were dispatched, in traversal order. -/
def install_dotfiles (os_name : OperatingSystem) (userInput : List Char)
    (osDirExists : Bool) (files : List SrcFile) : RunResult :=
  if userInput ≠ "y".data then .aborted
  else if !osDirExists then .noSourceDir
  else .completed (files.map (fun f =>
    if should_append f.content then .append f.relPath
    else if os_name = .Linux ∨ os_name = .MacOS then .symlink f.relPath
    else .copy f.relPath))

/-- The filesystem actions a finished run dispatched (none on an abort or a
missing source tree). -/
def actionsOf : RunResult → List Action
  | .completed as => as
  | _ => []

/-- `main()`: detect the platform, then install; a detection error
propagates and stops the script before `install_dotfiles` runs. -/
def main (system userInput : List Char) (osDirExists : Bool)
    (files : List SrcFile) : Except FsError RunResult :=
  match detect_os system with
  | .error e => .error e
  | .ok os => .ok (install_dotfiles os userInput osDirExists files)

/-- `splitlines` of a non-empty content is non-empty. -/
theorem splitlines_ne_nil {s : List Char} (h : s ≠ []) : splitlines s ≠ [] := by
  cases s with
  | nil => exact absurd rfl h
  | cons c rest =>
    simp only [splitlines]
    split
    · simp
    · cases hr : splitlines rest <;> simp [consHead]

/-- `consHead` only touches the first line, so it slides over an append
with a non-empty left part. -/
theorem consHead_append (c : Char) {X : List (List Char)} (Y : List (List Char)) (h : X ≠ []) :
    consHead c (X ++ Y) = consHead c X ++ Y := by
  cases X with
  | nil => exact absurd rfl h
  | cons l ls => simp [consHead]

/-- No line produced by `splitlines` contains a newline. -/
theorem splitlines_no_nl : ∀ (s : List Char), ∀ l ∈ splitlines s, '\n' ∉ l := by
  intro s
  induction s with
  | nil => intro l hl; simp [splitlines] at hl
  | cons c rest ih =>
    intro l hl
    simp only [splitlines] at hl
    by_cases hc : c = '\n'
    · rw [if_pos hc] at hl
      rcases List.mem_cons.mp hl with h | h
      · subst h; simp
      · exact ih l h
    · rw [if_neg hc] at hl
      cases hr : splitlines rest with
      | nil =>
        rw [hr] at hl
        simp only [consHead, List.mem_singleton] at hl
        subst hl
        simp only [List.mem_singleton]
        exact fun h => hc h.symm
      | cons l0 ls =>
        rw [hr] at hl
        simp only [consHead, List.mem_cons] at hl
        rcases hl with h | h
        · subst h
          intro hmem
          rcases List.mem_cons.mp hmem with h1 | h1
          · exact hc h1.symm
          · exact ih l0 (hr ▸ List.mem_cons_self l0 ls) h1
        · exact ih l (hr ▸ List.mem_cons_of_mem l0 h)

/-- The unfolding equation of `splitlines` on a cons cell. -/
theorem splitlines_cons (c : Char) (rest : List Char) :
    splitlines (c :: rest) =
      if c = '\n' then [] :: splitlines rest else consHead c (splitlines rest) := rfl

/-- Splitting around an explicit newline: the left part keeps the newline
as its terminator. -/
theorem splitlines_append_nl (xs ys : List Char) :
    splitlines (xs ++ '\n' :: ys) = splitlines (xs ++ ['\n']) ++ splitlines ys := by
  induction xs with
  | nil => simp [splitlines, splitlines_cons]
  | cons c xs ih =>
    rw [List.cons_append, List.cons_append, splitlines_cons, splitlines_cons]
    by_cases hc : c = '\n'
    · rw [if_pos hc, if_pos hc, ih, List.cons_append]
    · rw [if_neg hc, if_neg hc, ih, consHead_append]
      exact splitlines_ne_nil (by simp)

/-- Adding a terminating newline to a non-empty content that does not end
in one leaves its lines unchanged. -/
theorem splitlines_concat_nl : ∀ (c : List Char), c ≠ [] → c.getLast? ≠ some '\n' →
    splitlines (c ++ ['\n']) = splitlines c := by
  intro c
  induction c with
  | nil => intro h _; exact absurd rfl h
  | cons a c ih =>
    intro _ hlast
    cases c with
    | nil =>
      have ha : a ≠ '\n' := by
        intro h; exact hlast (by simp [h])
      simp [splitlines, splitlines_cons, consHead, ha]
    | cons b c2 =>
      have hlast' : (b :: c2).getLast? ≠ some '\n' := by
        simpa [List.getLast?_cons_cons] using hlast
      have ihr := ih (by simp) hlast'
      rw [List.cons_append, splitlines_cons, splitlines_cons, ihr]

/-- A content that ends in a newline splits independently of what follows. -/
theorem splitlines_append_of_last_nl (c ys : List Char) (h : c.getLast? = some '\n') :
    splitlines (c ++ ys) = splitlines c ++ splitlines ys := by
  have hne : c ≠ [] := by
    intro hc; rw [hc] at h; simp at h
  have h' : c.getLast hne = '\n' := by
    rw [List.getLast?_eq_getLast c hne] at h
    exact Option.some_inj.mp h
  have hdrop : c.dropLast ++ ['\n'] = c := by
    rw [← h']
    exact List.dropLast_append_getLast hne
  calc splitlines (c ++ ys)
      = splitlines (c.dropLast ++ '\n' :: ys) := by
        conv_lhs => rw [← hdrop]
        rw [List.append_assoc, List.singleton_append]
    _ = splitlines (c.dropLast ++ ['\n']) ++ splitlines ys := splitlines_append_nl _ _
    _ = splitlines c ++ splitlines ys := by rw [hdrop]

/-- A single newline-free, non-empty line splits to itself, with or without
a terminating newline. -/
theorem splitlines_single : ∀ (l : List Char), '\n' ∉ l → l ≠ [] →
    splitlines l = [l] ∧ splitlines (l ++ ['\n']) = [l] := by
  intro l
  induction l with
  | nil => intro _ h; exact absurd rfl h
  | cons a l ih =>
    intro hnl _
    have ha : a ≠ '\n' := fun h => hnl (by simp [h])
    have hnl' : '\n' ∉ l := fun h => hnl (List.mem_cons_of_mem a h)
    cases l with
    | nil =>
      constructor
      · simp [splitlines, splitlines_cons, consHead, ha]
      · simp [splitlines, splitlines_cons, consHead, ha]
    | cons b l2 =>
      obtain ⟨ih1, ih2⟩ := ih hnl' (by simp)
      constructor
      · rw [splitlines_cons, if_neg ha, ih1]
        rfl
      · rw [List.cons_append, splitlines_cons, if_neg ha, ih2]
        rfl

/-- `"\n".join` and `splitlines` are inverse on a non-empty list of
newline-free, non-empty lines — with or without a final newline. -/
theorem splitlines_joinNl : ∀ (lines : List (List Char)), lines ≠ [] →
    (∀ l ∈ lines, '\n' ∉ l ∧ l ≠ []) →
    splitlines (joinNl lines) = lines ∧ splitlines (joinNl lines ++ ['\n']) = lines := by
  intro lines
  induction lines with
  | nil => intro h _; exact absurd rfl h
  | cons l ls ih =>
    intro _ hall
    obtain ⟨hn, hne⟩ := hall l (List.mem_cons_self l ls)
    cases ls with
    | nil => simpa [joinNl] using splitlines_single l hn hne
    | cons m ms =>
      have hall' : ∀ x ∈ m :: ms, '\n' ∉ x ∧ x ≠ [] :=
        fun x hx => hall x (List.mem_cons_of_mem l hx)
      obtain ⟨ih1, ih2⟩ := ih (by simp) hall'
      have hjoin : joinNl (l :: m :: ms) = l ++ '\n' :: joinNl (m :: ms) := rfl
      constructor
      · rw [hjoin, splitlines_append_nl, (splitlines_single l hn hne).2, ih1]
        rfl
      · rw [hjoin, List.append_assoc, List.cons_append, splitlines_append_nl,
          (splitlines_single l hn hne).2, ih2]
        rfl

/-- Every line `append_to_file` considers for writing is newline-free and
non-blank (so non-empty). -/
theorem sourceLines_wf (src : List Char) : ∀ l ∈ sourceLines src, '\n' ∉ l ∧ l ≠ [] := by
  intro l hl
  unfold sourceLines at hl
  obtain ⟨hmem, hblank⟩ := List.mem_filter.mp hl
  refine ⟨splitlines_no_nl _ l hmem, ?_⟩
  intro he
  subst he
  simp [isBlank] at hblank

/-- The lines of the block `append_to_file` builds: a non-empty list of
newline-free, non-empty lines splits back to itself after being joined,
optionally newline-terminated, and appended to prior content. -/
theorem splitlines_block (c : List Char) (lines : List (List Char)) (fin : List Char)
    (hlines : lines ≠ []) (hwf : ∀ l ∈ lines, '\n' ∉ l ∧ l ≠ [])
    (hfin : fin = [] ∨ fin = ['\n']) :
    splitlines (c ++ (if c = [] then [] else if c.getLast? = some '\n' then [] else ['\n']) ++
        joinNl lines ++ fin) =
      splitlines c ++ lines := by
  have hblock : splitlines (joinNl lines ++ fin) = lines := by
    rcases hfin with h | h
    · rw [h, List.append_nil]
      exact (splitlines_joinNl lines hlines hwf).1
    · rw [h]
      exact (splitlines_joinNl lines hlines hwf).2
  by_cases hc : c = []
  · subst hc
    simp only [if_pos rfl, List.nil_append, List.append_nil, List.append_assoc]
    rw [← List.append_assoc]  -- joinNl lines ++ fin shape
    simpa [splitlines] using hblock
  · rw [if_neg hc]
    by_cases hlast : c.getLast? = some '\n'
    · rw [if_pos hlast, List.append_nil, List.append_assoc]
      rw [splitlines_append_of_last_nl c _ hlast, hblock]
    · rw [if_neg hlast, List.append_assoc, List.append_assoc, List.singleton_append]
      rw [splitlines_append_nl, splitlines_concat_nl c hc hlast, hblock]

/-- What a run of `append_to_file` that reports `appended n` did: the
destination is a file whose lines are the prior destination lines followed
by exactly the source lines that were not already present, and the parent
directory now exists. -/
theorem append_characterization (src : List Char) (st st' : FState) (n : Nat)
    (h : append_to_file src st = (st', .ok (.appended n))) :
    st'.parentExists = true ∧
    ∃ c', st'.dest = some (.file c') ∧
      splitlines c' =
        destLines st ++ (sourceLines src).filter (fun l => decide (l ∉ destLines st)) ∧
      n = ((sourceLines src).filter (fun l => decide (l ∉ destLines st))).length := by
  obtain ⟨pe, d⟩ := st
  have hwf := sourceLines_wf src
  cases d with
  | none =>
    simp only [append_to_file] at h
    by_cases hSL : (sourceLines src).isEmpty
    · rw [if_pos hSL] at h
      simp at h
    · rw [if_neg hSL] at h
      have hSLne : sourceLines src ≠ [] := fun he => hSL (List.isEmpty_iff.mpr he)
      simp only [Prod.mk.injEq, Except.ok.injEq, AppendReport.appended.injEq] at h
      obtain ⟨hst, hrep⟩ := h
      have hfilter : (sourceLines src).filter
          (fun l => decide (l ∉ destLines ⟨pe, none⟩)) = sourceLines src := by
        rw [List.filter_eq_self]
        intro a _
        simp [destLines]
      refine ⟨by rw [← hst], joinNl (sourceLines src) ++
        (if endsWithNl (read_file_content true src) then ['\n'] else []), by rw [← hst], ?_, ?_⟩
      · rw [hfilter]
        show splitlines (joinNl (sourceLines src) ++ _) = destLines ⟨pe, none⟩ ++ _
        have hd0 : destLines ⟨pe, none⟩ = [] := rfl
        rw [hd0, List.nil_append]
        by_cases hfin : endsWithNl (read_file_content true src)
        · rw [if_pos hfin]
          exact (splitlines_joinNl _ hSLne hwf).2
        · rw [if_neg hfin, List.append_nil]
          exact (splitlines_joinNl _ hSLne hwf).1
      · rw [hfilter]
        exact hrep.symm
  | some e =>
    cases e with
    | dir =>
      simp only [append_to_file] at h
      by_cases hSL : (sourceLines src).isEmpty
      · rw [if_pos hSL] at h
        simp at h
      · rw [if_neg hSL] at h
        simp at h
    | file c =>
      simp only [append_to_file] at h
      by_cases hSL : (sourceLines src).isEmpty
      · rw [if_pos hSL] at h
        simp at h
      · rw [if_neg hSL] at h
        have hdl : destLines ⟨pe, some (.file c)⟩ = splitlines c := rfl
        by_cases hltw : ((sourceLines src).filter (fun l => decide (l ∉ splitlines c))).isEmpty
        · rw [if_pos hltw] at h
          simp at h
        · rw [if_neg hltw] at h
          simp only [Prod.mk.injEq, Except.ok.injEq, AppendReport.appended.injEq] at h
          obtain ⟨hst, hrep⟩ := h
          have hltwne : (sourceLines src).filter (fun l => decide (l ∉ splitlines c)) ≠ [] :=
            fun he => hltw (List.isEmpty_iff.mpr he)
          have hwf' : ∀ l ∈ (sourceLines src).filter (fun l => decide (l ∉ splitlines c)),
              '\n' ∉ l ∧ l ≠ [] :=
            fun l hl => hwf l (List.mem_filter.mp hl).1
          refine ⟨by rw [← hst], _, by rw [← hst], ?_, ?_⟩
          · rw [hdl]
            exact splitlines_block c _ _ hltwne hwf'
              (by by_cases hfin : endsWithNl (read_file_content true src) <;> simp [hfin])
          · rw [hdl]
            exact hrep.symm

/-- A run of `append_to_file` against a destination file that already holds
every source line reports "up to date" and changes nothing. -/
theorem append_second_run (src : List Char) (c' : List Char)
    (hcover : ∀ l ∈ sourceLines src, l ∈ splitlines c')
    (hSL : ¬(sourceLines src).isEmpty = true) :
    append_to_file src ⟨true, some (.file c')⟩ = (⟨true, some (.file c')⟩, .ok .upToDate) := by
  have hltw : (sourceLines src).filter (fun l => decide (l ∉ splitlines c')) = [] := by
    rw [List.filter_eq_nil_iff]
    intro a ha
    simp only [decide_eq_true_eq, not_not]
    exact hcover a ha
  simp only [append_to_file, if_neg hSL]
  rw [hltw]
  simp

/-- C2: the merge is idempotent.  Whenever a run of `append_to_file`
completes without an exception, running it again with the same source
against the destination it produced leaves the filesystem state unchanged
and reports nothing new to append ("nothing to append" or "up to date" —
never `appended`). -/
theorem c2_append_to_file_idempotent (src : List Char) (st st' : FState) (r : AppendReport)
    (h : append_to_file src st = (st', .ok r)) :
    (append_to_file src st').1 = st' ∧
    ((append_to_file src st').2 = .ok .nothingToAppend ∨
      (append_to_file src st').2 = .ok .upToDate) := by
  obtain ⟨pe, d⟩ := st
  by_cases hSL : (sourceLines src).isEmpty
  · simp only [append_to_file, if_pos hSL, Prod.mk.injEq] at h
    obtain ⟨hst, _⟩ := h
    have h2 : append_to_file src ⟨true, d⟩ = (⟨true, d⟩, .ok .nothingToAppend) := by
      simp only [append_to_file, if_pos hSL]
    rw [← hst, h2]
    exact ⟨rfl, Or.inl rfl⟩
  · have hSLne : sourceLines src ≠ [] := fun he => hSL (List.isEmpty_iff.mpr he)
    have hwf := sourceLines_wf src
    cases d with
    | none =>
      simp only [append_to_file, if_neg hSL, Prod.mk.injEq] at h
      obtain ⟨hst, _⟩ := h
      have hsplit : splitlines (joinNl (sourceLines src) ++
          (if endsWithNl (read_file_content true src) then ['\n'] else [])) = sourceLines src := by
        by_cases hfin : endsWithNl (read_file_content true src)
        · rw [if_pos hfin]
          exact (splitlines_joinNl _ hSLne hwf).2
        · rw [if_neg hfin, List.append_nil]
          exact (splitlines_joinNl _ hSLne hwf).1
      have h2 := append_second_run src (joinNl (sourceLines src) ++
          (if endsWithNl (read_file_content true src) then ['\n'] else []))
        (fun l hl => by rw [hsplit]; exact hl) hSL
      rw [← hst, h2]
      exact ⟨rfl, Or.inr rfl⟩
    | some e =>
      cases e with
      | dir =>
        simp only [append_to_file, if_neg hSL] at h
        simp at h
      | file c =>
        simp only [append_to_file, if_neg hSL] at h
        by_cases hltw : ((sourceLines src).filter (fun l => decide (l ∉ splitlines c))).isEmpty
        · rw [if_pos hltw] at h
          simp only [Prod.mk.injEq] at h
          obtain ⟨hst, _⟩ := h
          have h2 : append_to_file src ⟨true, some (.file c)⟩ =
              (⟨true, some (.file c)⟩, .ok .upToDate) := by
            simp only [append_to_file, if_neg hSL]
            rw [if_pos hltw]
          rw [← hst, h2]
          exact ⟨rfl, Or.inr rfl⟩
        · rw [if_neg hltw] at h
          simp only [Prod.mk.injEq] at h
          obtain ⟨hst, _⟩ := h
          have hltwne : (sourceLines src).filter (fun l => decide (l ∉ splitlines c)) ≠ [] :=
            fun he => hltw (List.isEmpty_iff.mpr he)
          have hwf' : ∀ l ∈ (sourceLines src).filter (fun l => decide (l ∉ splitlines c)),
              '\n' ∉ l ∧ l ≠ [] := fun l hl => hwf l (List.mem_filter.mp hl).1
          have hsplit := splitlines_block c
            ((sourceLines src).filter (fun l => decide (l ∉ splitlines c)))
            (if endsWithNl (read_file_content true src) then ['\n'] else [])
            hltwne hwf'
            (by by_cases hfin : endsWithNl (read_file_content true src) <;> simp [hfin])
          have hcover : ∀ l ∈ sourceLines src, l ∈ splitlines
              (c ++ (if c = [] then [] else if c.getLast? = some '\n' then [] else ['\n']) ++
                joinNl ((sourceLines src).filter (fun l => decide (l ∉ splitlines c))) ++
                (if endsWithNl (read_file_content true src) then ['\n'] else [])) := by
            intro l hl
            rw [hsplit]
            by_cases hmem : l ∈ splitlines c
            · exact List.mem_append_left _ hmem
            · exact List.mem_append_right _ (List.mem_filter.mpr ⟨hl, by simpa using hmem⟩)
          have h2 := append_second_run src _ hcover hSL
          rw [← hst, h2]
          exact ⟨rfl, Or.inr rfl⟩

/-- `leadsWith` decides "starts with". -/
theorem leadsWith_iff : ∀ (needle hay : List Char),
    leadsWith needle hay = true ↔ ∃ t, hay = needle ++ t := by
  intro needle
  induction needle with
  | nil =>
    intro hay
    simp [leadsWith]
  | cons a as ih =>
    intro hay
    cases hay with
    | nil => simp [leadsWith]
    | cons b bs =>
      simp only [leadsWith, Bool.and_eq_true, decide_eq_true_eq]
      constructor
      · rintro ⟨hab, ht⟩
        obtain ⟨t, ht2⟩ := (ih bs).mp ht
        refine ⟨t, ?_⟩
        rw [← hab, ht2, List.cons_append]
      · rintro ⟨t, ht⟩
        rw [List.cons_append] at ht
        obtain ⟨h1, h2⟩ := List.cons.inj ht
        exact ⟨h1.symm, (ih bs).mpr ⟨t, h2⟩⟩

/-- `containsSub` decides contiguous-substring containment (Python's
`needle in hay`). -/
theorem containsSub_iff : ∀ (needle hay : List Char),
    containsSub needle hay = true ↔ ∃ pre post, hay = pre ++ needle ++ post := by
  intro needle hay
  induction hay with
  | nil =>
    simp only [containsSub, List.isEmpty_iff]
    constructor
    · intro h
      exact ⟨[], [], by simp [h]⟩
    · rintro ⟨pre, post, h⟩
      obtain ⟨h1, h2⟩ := List.append_eq_nil.mp h.symm
      exact (List.append_eq_nil.mp h1).2
  | cons c rest ih =>
    simp only [containsSub, Bool.or_eq_true]
    rw [leadsWith_iff, ih]
    constructor
    · rintro (⟨t, ht⟩ | ⟨pre, post, hp⟩)
      · exact ⟨[], t, by simp [ht]⟩
      · refine ⟨c :: pre, post, ?_⟩
        rw [hp, List.cons_append, List.cons_append]
    · rintro ⟨pre, post, hp⟩
      cases pre with
      | nil => exact Or.inl ⟨post, by simpa using hp⟩
      | cons p ps =>
        rw [List.cons_append, List.cons_append] at hp
        exact Or.inr ⟨ps, post, (List.cons.inj hp).2⟩

/-- C1 (counterexample): a first line that contains the marker without
being exactly the marker — here a commented-out one — is still classified
as append-mode, so the classifier is not the stated equality test. -/
theorem c1_equality_reading_fails :
    should_append "# >>> append <<<\nalias ll=ls".data = true ∧
    normalizedFirstLine "# >>> append <<<\nalias ll=ls".data ≠ APPEND_MODE_TARGET := by
  decide

/-- C1 (amended): `should_append` returns true iff the whitespace-stripped,
lowercased first line CONTAINS the token `>>>append<<<` as a contiguous
substring (not only when it equals it). -/
theorem c1_should_append_contains_marker (src : List Char) :
    should_append src = true ↔
      ∃ pre post, normalizedFirstLine src = pre ++ APPEND_MODE_TARGET ++ post := by
  unfold should_append
  exact containsSub_iff APPEND_MODE_TARGET (normalizedFirstLine src)

/-- C2 (witness): a concrete idempotent run — merging a two-line source
into an absent destination, then re-running against the produced file. -/
theorem c2_append_to_file_idempotent_witness :
    (append_to_file ">>>append<<<\nexport A=1\nexport B=2\n".data
      ⟨true, some (.file "export A=1\nexport B=2\n".data)⟩).1 =
        ⟨true, some (.file "export A=1\nexport B=2\n".data)⟩ ∧
    ((append_to_file ">>>append<<<\nexport A=1\nexport B=2\n".data
      ⟨true, some (.file "export A=1\nexport B=2\n".data)⟩).2 = .ok .nothingToAppend ∨
     (append_to_file ">>>append<<<\nexport A=1\nexport B=2\n".data
      ⟨true, some (.file "export A=1\nexport B=2\n".data)⟩).2 = .ok .upToDate) :=
  c2_append_to_file_idempotent ">>>append<<<\nexport A=1\nexport B=2\n".data
    ⟨false, none⟩ ⟨true, some (.file "export A=1\nexport B=2\n".data)⟩
    (.appended 2) (by decide)

/-- C5 (counterexample): on a marker file whose stripped body is empty,
`append_to_file` still mutates the filesystem when the destination's parent
directory is missing — `mkdir(parents=True, exist_ok=True)` runs before the
empty-body check — even though the destination itself is untouched and a
no-op is reported. -/
theorem c5_mkdir_despite_noop_cex :
    should_append ">>> APPEND <<<\n\n   \n".data = true ∧
    (append_to_file ">>> APPEND <<<\n\n   \n".data ⟨false, none⟩).2 = .ok .nothingToAppend ∧
    (append_to_file ">>> APPEND <<<\n\n   \n".data ⟨false, none⟩).1 ≠
      (⟨false, none⟩ : FState) := by
  decide

/-- C5 (amended): when the stripped body is empty the merge reports a no-op
and writes nothing to the destination — the destination entry is exactly
what it was — but the destination's parent directories are created
unconditionally before the check. -/
theorem c5_blank_body_noop (src : List Char) (st : FState)
    (h : sourceLines src = []) :
    append_to_file src st = ({ st with parentExists := true }, .ok .nothingToAppend) := by
  have hSL : (sourceLines src).isEmpty = true := List.isEmpty_iff.mpr h
  simp only [append_to_file, if_pos hSL]

/-- C5 (witness): the amended no-op behaviour on a concrete marker-only
source file. -/
theorem c5_blank_body_noop_witness :
    append_to_file ">>> APPEND <<<\n\n   \n".data ⟨false, none⟩ =
      (⟨true, none⟩, .ok .nothingToAppend) :=
  c5_blank_body_noop ">>> APPEND <<<\n\n   \n".data ⟨false, none⟩ (by decide)

/-- C6 (counterexample): a line that occurs twice in the source body and is
absent from the destination is written twice — the membership test only
consults the destination's pre-existing lines, never the lines already
queued in the same run. -/
theorem c6_duplicate_lines_written_cex :
    should_append ">>>append<<<\nx\nx\n".data = true ∧
    append_to_file ">>>append<<<\nx\nx\n".data ⟨true, none⟩ =
      (⟨true, some (.file "x\nx\n".data)⟩, .ok (.appended 2)) ∧
    (splitlines "x\nx\n".data).count "x".data = 2 := by
  decide

/-- C6 (amended): deduplication is only against the destination.  After a
writing run, the number of occurrences of any line at the destination is
its prior count there, plus — only when it was absent — its full number of
occurrences among the source body's non-blank lines. -/
theorem c6_dedup_only_against_destination (src : List Char) (st st' : FState) (n : Nat)
    (h : append_to_file src st = (st', .ok (.appended n))) (l : List Char) :
    ∃ c', st'.dest = some (.file c') ∧
      (splitlines c').count l =
        (destLines st).count l +
          (if l ∈ destLines st then 0 else (sourceLines src).count l) := by
  obtain ⟨hpe, c', hdest, hsplit, hn⟩ := append_characterization src st st' n h
  refine ⟨c', hdest, ?_⟩
  rw [hsplit, List.count_append]
  congr 1
  by_cases hmem : l ∈ destLines st
  · rw [if_pos hmem, List.count_eq_zero]
    intro hcontra
    have h2 := (List.mem_filter.mp hcontra).2
    simp only [decide_eq_true_eq] at h2
    exact h2 hmem
  · rw [if_neg hmem]
    exact List.count_filter (by simpa using hmem)

/-- C6 (witness): the amended count law on a concrete run — `x` occurs
twice in the source, is absent from the destination `y`, and ends up twice
at the destination. -/
theorem c6_dedup_only_against_destination_witness :
    ∃ c', (⟨true, some (.file "y\nx\nx\n".data)⟩ : FState).dest = some (.file c') ∧
      (splitlines c').count "x".data =
        (destLines ⟨true, some (.file "y\n".data)⟩).count "x".data +
          (if "x".data ∈ destLines ⟨true, some (.file "y\n".data)⟩ then 0
            else (sourceLines ">>>append<<<\nx\nx\ny\n".data).count "x".data) :=
  c6_dedup_only_against_destination ">>>append<<<\nx\nx\ny\n".data
    ⟨true, some (.file "y\n".data)⟩ ⟨true, some (.file "y\nx\nx\n".data)⟩
    2 (by decide) "x".data

/-- C7: the exact format of a writing run.  The written block is the new
lines joined by newlines; it is preceded by a separating newline exactly
when the prior destination content is non-empty and does not end in a
newline (in particular never when the destination was absent), and followed
by a final newline exactly when the source content after the marker line
ended with one. -/
theorem c7_append_write_format (src : List Char) (st st' : FState) (n : Nat)
    (h : append_to_file src st = (st', .ok (.appended n))) :
    ∃ c, (st.dest = some (.file c) ∨ (st.dest = none ∧ c = [])) ∧
      st'.dest = some (.file (c ++
        (if c = [] then [] else if c.getLast? = some '\n' then [] else ['\n']) ++
        joinNl ((sourceLines src).filter (fun l => decide (l ∉ splitlines c))) ++
        (if endsWithNl (read_file_content true src) then ['\n'] else []))) := by
  obtain ⟨pe, d⟩ := st
  by_cases hSL : (sourceLines src).isEmpty
  · simp only [append_to_file, if_pos hSL] at h
    simp at h
  · cases d with
    | none =>
      simp only [append_to_file, if_neg hSL, Prod.mk.injEq] at h
      obtain ⟨hst, _⟩ := h
      refine ⟨[], Or.inr ⟨rfl, rfl⟩, ?_⟩
      rw [← hst]
      have hfilter : (sourceLines src).filter
          (fun l => !decide (l ∈ splitlines ([] : List Char))) = sourceLines src := by
        rw [List.filter_eq_self]
        intro a _
        simp [splitlines]
      simp [hfilter]
    | some e =>
      cases e with
      | dir =>
        simp only [append_to_file, if_neg hSL] at h
        simp at h
      | file c =>
        simp only [append_to_file, if_neg hSL] at h
        by_cases hltw : ((sourceLines src).filter (fun l => decide (l ∉ splitlines c))).isEmpty
        · rw [if_pos hltw] at h
          simp at h
        · rw [if_neg hltw] at h
          simp only [Prod.mk.injEq] at h
          obtain ⟨hst, _⟩ := h
          exact ⟨c, Or.inl rfl, by rw [← hst]⟩

/-- C7 (witness): a concrete writing run against a destination that does
not end in a newline: a separator is written, then the new line, then the
final newline inherited from the source block. -/
theorem c7_append_write_format_witness :
    ∃ c, ((⟨true, some (.file "a".data)⟩ : FState).dest = some (.file c) ∨
        ((⟨true, some (.file "a".data)⟩ : FState).dest = none ∧ c = [])) ∧
      (⟨true, some (.file "a\nb\n".data)⟩ : FState).dest = some (.file (c ++
        (if c = [] then [] else if c.getLast? = some '\n' then [] else ['\n']) ++
        joinNl ((sourceLines ">>>append<<<\nb\n".data).filter
          (fun l => decide (l ∉ splitlines c))) ++
        (if endsWithNl (read_file_content true ">>>append<<<\nb\n".data) then ['\n'] else []))) :=
  c7_append_write_format ">>>append<<<\nb\n".data ⟨true, some (.file "a".data)⟩
    ⟨true, some (.file "a\nb\n".data)⟩ 1 (by decide)

/-- C10 (counterexample): an append-mode file whose stripped body is empty
returns a normal no-op even when the destination is a directory — no error
is raised, because the early return happens before any destination I/O. -/
theorem c10_blank_body_no_error_cex :
    should_append ">>> append <<<\n".data = true ∧
    (append_to_file ">>> append <<<\n".data ⟨true, some .dir⟩).2 = .ok .nothingToAppend ∧
    (append_to_file ">>> append <<<\n".data ⟨true, some .dir⟩).1.dest = some .dir := by
  decide

/-- C10 (amended): with a directory at the destination, `append_to_file`
never removes or replaces it; it raises an error (from opening the
directory for reading) exactly when the stripped source body is non-empty,
and reports a plain no-op when it is empty. -/
theorem c10_dir_destination (src : List Char) (st : FState) (h : st.dest = some .dir) :
    (append_to_file src st).1 = { st with parentExists := true } ∧
    (sourceLines src ≠ [] → (append_to_file src st).2 = .error .isADirectory) ∧
    (sourceLines src = [] → (append_to_file src st).2 = .ok .nothingToAppend) := by
  obtain ⟨pe, d⟩ := st
  have hd : d = some .dir := h
  subst hd
  by_cases hSL : (sourceLines src).isEmpty
  · have hrun : append_to_file src ⟨pe, some .dir⟩ =
        (⟨true, some .dir⟩, .ok .nothingToAppend) := by
      simp only [append_to_file, if_pos hSL]
    rw [hrun]
    exact ⟨rfl, fun hne => absurd (List.isEmpty_iff.mp hSL) hne, fun _ => rfl⟩
  · have hrun : append_to_file src ⟨pe, some .dir⟩ =
        (⟨true, some .dir⟩, .error .isADirectory) := by
      simp only [append_to_file, if_neg hSL]
    rw [hrun]
    exact ⟨rfl, fun _ => rfl, fun heq => absurd (List.isEmpty_iff.mpr heq) hSL⟩

/-- C10 (witness): a directory destination with a non-empty source body —
the run raises and the directory survives. -/
theorem c10_dir_destination_witness :
    (append_to_file ">>>append<<<\nexport X=1\n".data ⟨true, some .dir⟩).1 =
      ({ (⟨true, some .dir⟩ : FState) with parentExists := true }) ∧
    (sourceLines ">>>append<<<\nexport X=1\n".data ≠ [] →
      (append_to_file ">>>append<<<\nexport X=1\n".data ⟨true, some .dir⟩).2 =
        .error .isADirectory) ∧
    (sourceLines ">>>append<<<\nexport X=1\n".data = [] →
      (append_to_file ">>>append<<<\nexport X=1\n".data ⟨true, some .dir⟩).2 =
        .ok .nothingToAppend) :=
  c10_dir_destination ">>>append<<<\nexport X=1\n".data ⟨true, some .dir⟩ rfl

/-- C3 (code bug): with a dangling symlink at the destination,
`destination.exists()` follows the link and returns false, so the removal
branch is skipped and `os.symlink` raises `FileExistsError`; the dangling
link survives instead of being unlinked and replaced as the contract
states. -/
theorem c3_dangling_symlink_not_replaced :
    create_symlink ["home", "user", "dotfiles", "linux", "config"] true
        (some (.lsymlink ["old", "target"] false)) true =
      (true, some (.lsymlink ["old", "target"] false), .error .fileExists) ∧
    create_symlink ["home", "user", "dotfiles", "linux", "config"] true
        (some (.lsymlink ["old", "target"] true)) true =
      (true, some (.lsymlink ["home", "user", "dotfiles", "linux", "config"] true), .ok ()) := by
  decide

/-- C4 (counterexample): with a pre-existing directory at the destination,
`copy_file` leaves the directory in place and copies the source into it
under the source's base name — the destination does not become a regular
file. -/
theorem c4_copy_into_directory_cex :
    copy_file "gitconfig" "abc".data (some (.cdir [])) =
      (true, some (.cdir [("gitconfig", "abc".data)])) ∧
    (copy_file "gitconfig" "abc".data (some (.cdir []))).2 ≠ some (.cfile "abc".data) := by
  decide

/-- C4 (amended): on Windows a pre-existing destination directory is never
removed: `shutil.copy2` copies the source file into the directory under its
base name, and the directory remains the destination entry. -/
theorem c4_copy_preserves_directory (nm : String) (content : List Char)
    (es : List (String × List Char)) :
    copy_file nm content (some (.cdir es)) =
      (true, some (.cdir (updateEntry es nm content))) := rfl

/-- C8: any confirmation input other than the literal `"y"` (including the
empty string and `"Y"`) aborts the run at once: no per-file action is
dispatched, and — whenever platform detection succeeded — the whole process
ends in the normal (non-error) `aborted` outcome. -/
theorem c8_decline_aborts (os : OperatingSystem) (userInput : List Char)
    (osDirExists : Bool) (files : List SrcFile) (h : userInput ≠ "y".data) :
    install_dotfiles os userInput osDirExists files = .aborted ∧
    actionsOf (install_dotfiles os userInput osDirExists files) = [] ∧
    (∀ (system : List Char) (os2 : OperatingSystem), detect_os system = .ok os2 →
      main system userInput osDirExists files = .ok .aborted) := by
  have habort : ∀ os3 : OperatingSystem,
      install_dotfiles os3 userInput osDirExists files = .aborted := by
    intro os3
    simp only [install_dotfiles, if_pos h]
  refine ⟨habort os, by rw [habort os]; rfl, ?_⟩
  intro system os2 hdet
  simp only [main, hdet]
  rw [habort os2]

/-- C8 (witness): declining with `"Y"` on a Linux run with one pending
file. -/
theorem c8_decline_aborts_witness :
    install_dotfiles .Linux "Y".data true [⟨["bashrc"], "export A=1\n".data⟩] = .aborted ∧
    actionsOf (install_dotfiles .Linux "Y".data true [⟨["bashrc"], "export A=1\n".data⟩]) = [] ∧
    (∀ (system : List Char) (os2 : OperatingSystem), detect_os system = .ok os2 →
      main system "Y".data true [⟨["bashrc"], "export A=1\n".data⟩] = .ok .aborted) :=
  c8_decline_aborts .Linux "Y".data true [⟨["bashrc"], "export A=1\n".data⟩] (by decide)

/-- C9 (counterexample): the real host identifier `"Linux"` — an identifier
other than the three lowercase tokens — does not raise: the detector
lowercases before matching. -/
theorem c9_uppercase_identifier_cex :
    detect_os "Linux".data = .ok .Linux ∧
    "Linux".data ≠ "linux".data ∧
    "Linux".data ≠ "darwin".data ∧
    "Linux".data ≠ "windows".data := by
  decide

/-- C9 (amended): the detector maps an identifier by its lowercasing —
`linux`, `darwin`, `windows` give Linux, MacOS, Windows — and raises an
unsupported-platform error exactly when the lowercased identifier is none
of the three; on that error `main` stops before `install_dotfiles` runs, so
no filesystem action of the run is dispatched. -/
theorem c9_detect_os_characterization :
    (∀ system : List Char,
      (detect_os system = .ok .Linux ↔ system.map Char.toLower = "linux".data) ∧
      (detect_os system = .ok .MacOS ↔ system.map Char.toLower = "darwin".data) ∧
      (detect_os system = .ok .Windows ↔ system.map Char.toLower = "windows".data) ∧
      (detect_os system = .error .unsupportedPlatform ↔
        (system.map Char.toLower ≠ "linux".data ∧
         system.map Char.toLower ≠ "darwin".data ∧
         system.map Char.toLower ≠ "windows".data))) ∧
    (∀ (system userInput : List Char) (osDirExists : Bool) (files : List SrcFile)
      (err : FsError), detect_os system = .error err →
        main system userInput osDirExists files = .error err) := by
  constructor
  · intro system
    unfold detect_os
    by_cases h1 : system.map Char.toLower = "linux".data
    · rw [if_pos h1]
      refine ⟨by simp [h1], by simp [h1], by simp [h1], by simp [h1]⟩
    · rw [if_neg h1]
      by_cases h2 : system.map Char.toLower = "darwin".data
      · rw [if_pos h2]
        refine ⟨by simp [h1, h2], by simp [h2], by simp [h2], by simp [h1, h2]⟩
      · rw [if_neg h2]
        by_cases h3 : system.map Char.toLower = "windows".data
        · rw [if_pos h3]
          refine ⟨by simp [h1, h3], by simp [h2, h3], by simp [h3], by simp [h3]⟩
        · rw [if_neg h3]
          refine ⟨by simp [h1], by simp [h2], by simp [h3], by simp [h1, h2, h3]⟩
  · intro system userInput osDirExists files err hdet
    simp only [main, hdet]

end Dotfiles
